import Mathlib

/-!
Verification of the rule-evaluation core of jenkins-job-linter.

The development shallowly embeds the Python sources:
  * `jenkins_job_linter/linters.py`  — the tri-state result type, the abstract
    `Linter.check` root-tag gate and the five concrete rules;
  * `jenkins_job_linter/config.py`   — `GetListConfigParser.getlist`,
    `GLOBAL_CONFIG_DEFAULTS`, `_get_default_linter_configs`, `_filter_config`;
  * `jenkins_job_linter/__init__.py` — `lint_job_xml`, the per-document engine.

Modelling conventions:
  * An XML document is an `Element` tree; `ElementTree.findall` restricted to
    the fixed child-path expressions used by the linters (plain tag steps and
    the `*` wildcard) is `findall`.  A parsed empty XML element has `text =
    none`, matching `ElementTree`.
  * Fallible code returns `Option`: `none` models a raised exception
    (`IndexError` from `splitlines()[0]`, `KeyError`/`NoOptionError`/
    `ValueError` from configuration access).
  * Python strings are Lean `String`s; `str.splitlines` is modelled for the
    common line terminators `\n`, `\r\n`, `\r`; `str.strip` is `String.trim`
    (ASCII whitespace).
  * A `ConfigParser` is an ordered list of named sections of ordered
    `(option, value)` pairs, where a value is `Option String` (`none` models a
    value-less option under `allow_no_value=True`).  `read_dict` stringifies
    non-`None` values with `str()` (`PyValue.toRaw`) and lower-cases option
    keys (`optionxform`).  Default-section interpolation is not modelled; no
    claim depends on it.
  * The rule registry `LINTERS` is populated from packaging entry points that
    are not under `src/`; engine and configuration definitions are therefore
    parameterised by the registry, and a concrete `LINTERS` value is modelled
    from the spec for concrete evaluations.
-/

namespace JJL

/-- Tri-state result of one linting check (`LintResult` in `linters.py`);
`value` is the enum member's value, i.e. whether the result counts as a
success when reducing to pass/fail. -/
inductive LintResult where
  | PASS
  | FAIL
  | SKIP
  deriving DecidableEq, Repr

/-- The value of each `LintResult` enum member: `PASS = True`, `FAIL = False`,
`SKIP = True`. -/
def LintResult.value : LintResult → Bool
  | .PASS => true
  | .FAIL => false
  | .SKIP => true

/-- A check result: outcome plus optional diagnostic text
(`LintCheckResult = Tuple[LintResult, Optional[str]]`). -/
abbrev LintCheckResult := LintResult × Option String

/-- A parsed XML element: tag, text content and child elements.  A parsed
empty element (`<command></command>`) has `text = none`, as in
`xml.etree.ElementTree`. -/
inductive Element where
  | mk (tag : String) (text : Option String) (children : List Element)

/-- Tag of an element. -/
def Element.tag : Element → String
  | .mk t _ _ => t

/-- Text content of an element. -/
def Element.text : Element → Option String
  | .mk _ x _ => x

/-- Child elements of an element. -/
def Element.children : Element → List Element
  | .mk _ _ c => c

/-- One path step of `ElementTree.findall`: the children of `e` whose tag
matches the step (`*` matches every child). -/
def childMatch (seg : String) (e : Element) : List Element :=
  if seg == "*" then e.children else e.children.filter (fun c => c.tag == seg)

/-- `ElementTree.findall` for the relative child paths used by the linters:
successive child-tag steps from the root, results in document order. -/
def findall (e : Element) (path : List String) : List Element :=
  path.foldl (fun acc seg => acc.flatMap (childMatch seg)) [e]

/-- `ElementTree.find`: the first `findall` match, if any. -/
def find1 (e : Element) (path : List String) : Option Element :=
  (findall e path).head?

/-- The `EnsureTimestamps._xpath` path. -/
def timestampsXPath : List String :=
  ["buildWrappers", "hudson.plugins.timestamper.TimestamperBuildWrapper"]

/-- The `CheckEnvInject._xpath` path. -/
def envInjectXPath : List String :=
  ["properties", "EnvInjectJobProperty", "info", "propertiesContent"]

/-- The `CheckJobReferences._xpath` path. -/
def jobRefXPath : List String :=
  ["builders", "hudson.plugins.parameterizedtrigger.TriggerBuilder",
   "configs", "*", "projects"]

/-- The `ShellBuilderLinter._xpath` path. -/
def shellXPath : List String :=
  ["builders", "hudson.tasks.Shell", "command"]

/-- Worker for `splitlinesPy`: scans the characters, cutting a line at `\n`
or `\r`; the flag records that a `\r` was just consumed, so that a following
`\n` is swallowed (making `\r\n` a single terminator).  A final unterminated
line is kept, and the empty input yields no lines at all. -/
def splitlinesGo : Bool → List Char → List Char → List String
  | _, [], acc => if acc.isEmpty then [] else [String.mk acc.reverse]
  | skipNL, c :: rest, acc =>
    if skipNL && c == '\n' then splitlinesGo false rest acc
    else if c == '\n' then String.mk acc.reverse :: splitlinesGo false rest []
    else if c == '\r' then String.mk acc.reverse :: splitlinesGo true rest []
    else splitlinesGo false rest (c :: acc)

/-- Python `str.splitlines` (modelled for `\n`, `\r\n` and `\r`):
`"".splitlines() == []`, and a non-empty string always has a first line. -/
def splitlinesPy (s : String) : List String :=
  splitlinesGo false s.data []

/-- Membership in the regex character class `[a-z]`. -/
def isAZ (c : Char) : Bool :=
  'a' ≤ c && c ≤ 'z'

/-- Matcher for the regex fragment `[a-z]*sh` against a character list: some
(possibly empty) run of `[a-z]` characters followed by `s`, `h`. -/
def matchLettersThenSh : List Char → Bool
  | [] => false
  | c1 :: rest =>
    (match rest with
     | c2 :: _ => c1 == 's' && c2 == 'h'
     | [] => false)
    || (isAZ c1 && matchLettersThenSh rest)

/-- Python `str.startswith`. -/
def strStartsWith (s p : String) : Bool :=
  p.data.isPrefixOf s.data

/-- Python `re.match(r'#!/bin/[a-z]*sh', line) is not None`: `re.match`
anchors at the start only, so this is a prefix test. -/
def matchesShellShebang (line : String) : Bool :=
  strStartsWith line "#!/bin/" && matchLettersThenSh (line.data.drop 7)

/-- Python `re.match(r'-([a-z]+)', part)`: `some` of group 1 (the maximal
leading run of `[a-z]` after the dash) when the match succeeds. -/
def shellOptionsGroup (part : String) : Option String :=
  match part.data with
  | '-' :: rest =>
    if (rest.takeWhile isAZ).isEmpty then none
    else some (String.mk (rest.takeWhile isAZ))
  | _ => none

/-- Python `set(a).issubset(set(b))` for strings: every character of `a`
occurs in `b` (order-independent, duplicates ignored). -/
def charSubset (a b : String) : Bool :=
  a.data.all (fun c => b.data.contains c)

/-- Worker for `pySplit`: split at every separator occurrence, keeping empty
pieces, as Python `str.split` does when given an explicit separator. -/
def pySplitGo (sep : Char) : List Char → List Char → List (List Char)
  | [], acc => [acc.reverse]
  | c :: rest, acc =>
    if c == sep then acc.reverse :: pySplitGo sep rest []
    else pySplitGo sep rest (c :: acc)

/-- Python `str.split(sep)` with an explicit one-character separator:
`"".split(sep) == ['']`, empty pieces kept. -/
def pySplit (s : String) (sep : Char) : List String :=
  (pySplitGo sep s.data []).map String.mk

/-- ASCII whitespace, as stripped by Python `str.strip()`. -/
def isPySpace (c : Char) : Bool :=
  c == ' ' || c == '\t' || c == '\n' || c == '\r' || c == '\x0b' || c == '\x0c'

/-- Python `str.strip()` (modelled for ASCII whitespace). -/
def pyStrip (s : String) : String :=
  String.mk (((s.data.dropWhile isPySpace).reverse.dropWhile isPySpace).reverse)

/-- Python `str.lower()` (modelled for ASCII letters). -/
def pyLower (s : String) : String :=
  String.mk (s.data.map Char.toLower)

/-- A configuration section's stored options, in insertion order; a `none`
value models a value-less option (`allow_no_value=True`). -/
abbrev SectionOpts := List (String × Option String)

/-- Lookup of an option in a section: `none` models a `KeyError` /
`NoOptionError`, `some v` the stored value. -/
def optGet (sect : SectionOpts) (k : String) : Option (Option String) :=
  (sect.find? (fun kv => kv.1 == k)).map (fun kv => kv.2)

/-- `ConfigParser._convert_to_boolean`: the `BOOLEAN_STATES` table applied to
the lower-cased value; `none` models the `ValueError` on anything else. -/
def convertToBoolean (v : String) : Option Bool :=
  let l := pyLower v
  if l == "1" || l == "yes" || l == "true" || l == "on" then some true
  else if l == "0" || l == "no" || l == "false" || l == "off" then some false
  else none

/-- `SectionProxy.getboolean`: `none` models a missing option, a value-less
option, or an unparseable value (all of which raise in the source). -/
def getbooleanOpt (sect : SectionOpts) (k : String) : Option Bool :=
  match optGet sect k with
  | some (some v) => convertToBoolean v
  | _ => none

/-- `GetListConfigParser.getlist`'s converter `commas_to_list`: a falsy value
(`None` or the empty string) yields `[]`; otherwise split on commas and strip
each item. -/
def commas_to_list : Option String → List String
  | none => []
  | some v => if v == "" then [] else (pySplit v ',').map pyStrip

/-- `Linter.check`: the root-tag gate.  If the document root's tag differs
from the rule's `root_tag` the result is `Skip` with no detail and
`actual_check` never runs; otherwise the result is `actual_check`'s. -/
def Linter.check (root_tag : String) (actual : Element → Option LintCheckResult)
    (tree : Element) : Option LintCheckResult :=
  if tree.tag ≠ root_tag then some (.SKIP, none) else actual tree

/-- `EnsureTimestamps.actual_check`: `FAIL` unless the timestamper wrapper
element is present; never raises. -/
def EnsureTimestamps.actual_check (tree : Element) : Option LintCheckResult :=
  some (if (find1 tree timestampsXPath).isSome then (.PASS, none) else (.FAIL, none))

/-- `EnsureTimestamps.check` (root tag `project` via `JobLinter`). -/
def EnsureTimestamps.check (tree : Element) : Option LintCheckResult :=
  Linter.check "project" EnsureTimestamps.actual_check tree

/-- Loop body of `CheckEnvInject._check_properties`: the first required
setting not found verbatim among the configured lines, if any. -/
def CheckEnvInject.findMissing (configured : List String) : List String → Option String
  | [] => none
  | r :: rest =>
    if configured.contains r then CheckEnvInject.findMissing configured rest
    else some r

/-- `CheckEnvInject._check_properties`: split the properties content on `\n`
and fail on the first required setting missing from those lines. -/
def CheckEnvInject.check_properties (properties_content : String)
    (required : List String) : Option LintCheckResult :=
  match CheckEnvInject.findMissing (pySplit properties_content '\n') required with
  | some r => some (.FAIL, some ("Did not find " ++ r))
  | none => some (.PASS, none)

/-- `CheckEnvInject.actual_check`. -/
def CheckEnvInject.actual_check (sect : SectionOpts) (tree : Element) :
    Option LintCheckResult :=
  match optGet sect "required_environment_settings" with
  | none => none
  | some v =>
    if (commas_to_list v).isEmpty then some (.SKIP, none)
    else
      match find1 tree envInjectXPath with
      | none => some (.FAIL, some "Injection unexpectedly unconfigured")
      | some el =>
        match el.text with
        | none => some (.FAIL, some "Injected properties empty")
        | some txt => CheckEnvInject.check_properties txt (commas_to_list v)

/-- `CheckEnvInject.check`. -/
def CheckEnvInject.check (sect : SectionOpts) (tree : Element) :
    Option LintCheckResult :=
  Linter.check "project" (CheckEnvInject.actual_check sect) tree

/-- Loop of `CheckJobReferences.actual_check` over the reference nodes:
returns on the first reference with missing text or with a text not among the
run's object names. -/
def CheckJobReferences.checkRefs (object_names : List String) :
    List Element → Option LintCheckResult
  | [] => some (.PASS, none)
  | node :: rest =>
    match node.text with
    | none => some (.FAIL, some "No reference configured")
    | some project =>
      if object_names.contains project then
        CheckJobReferences.checkRefs object_names rest
      else some (.FAIL, some ("Reference to missing object " ++ project))

/-- `CheckJobReferences.actual_check`. -/
def CheckJobReferences.actual_check (object_names : List String) (tree : Element) :
    Option LintCheckResult :=
  CheckJobReferences.checkRefs object_names (findall tree jobRefXPath)

/-- `CheckJobReferences.check`. -/
def CheckJobReferences.check (object_names : List String) (tree : Element) :
    Option LintCheckResult :=
  Linter.check "project" (CheckJobReferences.actual_check object_names) tree

/-- Loop of `ShellBuilderLinter.actual_check`: call `shell_check` on each
shell builder's text, returning the first `FAIL` immediately; `PASS` when no
step fails.  A `none` from `shell_check` (an exception) propagates. -/
def ShellBuilderLinter.checkEach (shell_check : Option String → Option LintCheckResult) :
    List Element → Option LintCheckResult
  | [] => some (.PASS, none)
  | b :: rest =>
    match shell_check b.text with
    | none => none
    | some (r, t) =>
      if r == .FAIL then some (r, t)
      else ShellBuilderLinter.checkEach shell_check rest

/-- `ShellBuilderLinter.actual_check`: `SKIP` when the document has no shell
builders, else the per-step loop. -/
def ShellBuilderLinter.actual_check (shell_check : Option String → Option LintCheckResult)
    (tree : Element) : Option LintCheckResult :=
  if (findall tree shellXPath).isEmpty then some (.SKIP, none)
  else ShellBuilderLinter.checkEach shell_check (findall tree shellXPath)

/-- `CheckForEmptyShell.shell_check`: `FAIL` (no detail) when the script text
is `None` — which is how a parsed empty `<command/>` element is represented —
else `PASS`; never raises. -/
def CheckForEmptyShell.shell_check (shell_script : Option String) :
    Option LintCheckResult :=
  some (match shell_script with
        | none => (.FAIL, none)
        | some _ => (.PASS, none))

/-- `CheckForEmptyShell.actual_check`. -/
def CheckForEmptyShell.actual_check (tree : Element) : Option LintCheckResult :=
  ShellBuilderLinter.actual_check CheckForEmptyShell.shell_check tree

/-- `CheckForEmptyShell.check`. -/
def CheckForEmptyShell.check (tree : Element) : Option LintCheckResult :=
  Linter.check "project" CheckForEmptyShell.actual_check tree

/-- The apostrophe character, as a string. -/
def apos : String := String.mk [Char.ofNat 39]

/-- The detail text `"Shebang is Jenkins' default"`. -/
def jenkinsDefaultDetail : String := "Shebang is Jenkins" ++ apos ++ " default"

/-- `CheckShebang._check_shell_shebang`: split the first line on single
spaces; a second token must exist, match `-([a-z]+)`, and its option letters
must include every character of `required_shell_options`. -/
def CheckShebang.check_shell_shebang (required_shell_options first_line : String) : Bool :=
  match pySplit first_line ' ' with
  | _ :: part1 :: _ =>
    (match shellOptionsGroup part1 with
     | none => false
     | some g => charSubset required_shell_options g)
  | _ => false

/-- `CheckShebang._handle_jenkins_default`: `SKIP` when
`allow_default_shebang` is true, else `FAIL` with detail; `none` models the
exception when the option is missing or unparseable. -/
def CheckShebang.handle_jenkins_default (sect : SectionOpts) : Option LintCheckResult :=
  match getbooleanOpt sect "allow_default_shebang" with
  | none => none
  | some true => some (.SKIP, none)
  | some false => some (.FAIL, some jenkinsDefaultDetail)

/-- `CheckShebang.shell_check`.  `none` models a raised exception: the
`IndexError` of `shell_script.splitlines()[0]` on the empty string, or a
configuration access error. -/
def CheckShebang.shell_check (sect : SectionOpts) (shell_script : Option String) :
    Option LintCheckResult :=
  match shell_script with
  | none => some (.SKIP, none)
  | some s =>
    match splitlinesPy s with
    | [] => none
    | first_line :: _ =>
      if !(strStartsWith first_line "#!") then CheckShebang.handle_jenkins_default sect
      else if !(matchesShellShebang first_line) then some (.SKIP, none)
      else
        match optGet sect "required_shell_options" with
        | some (some ro) =>
          if ro == "" then some (.PASS, none)
          else if !(CheckShebang.check_shell_shebang ro first_line) then
            some (.FAIL, some ("Shebang is " ++ first_line))
          else some (.PASS, none)
        | _ => none

/-- `CheckShebang.actual_check`. -/
def CheckShebang.actual_check (sect : SectionOpts) (tree : Element) :
    Option LintCheckResult :=
  ShellBuilderLinter.actual_check (CheckShebang.shell_check sect) tree

/-- `CheckShebang.check`. -/
def CheckShebang.check (sect : SectionOpts) (tree : Element) :
    Option LintCheckResult :=
  Linter.check "project" (CheckShebang.actual_check sect) tree

/-- A Python value appearing in a configuration dictionary fed to
`ConfigParser.read_dict` (only the shapes the sources use). -/
inductive PyValue where
  | pystr (s : String)
  | pybool (b : Bool)
  | pylist (xs : List String)
  | pynone
  deriving DecidableEq

/-- Python `repr` of a string, as used by `str()` on a list of strings. -/
def pyRepr (s : String) : String := apos ++ s ++ apos

/-- The stringification `read_dict` applies to dictionary values: `str(value)`
for non-`None` values (`str([]) == "[]"`, `str(True) == "True"`), and `None`
kept as a value-less option (`allow_no_value=True`). -/
def PyValue.toRaw : PyValue → Option String
  | .pystr s => some s
  | .pybool true => some "True"
  | .pybool false => some "False"
  | .pylist xs => some ("[" ++ String.intercalate ", " (xs.map pyRepr) ++ "]")
  | .pynone => none

/-- A named configuration section. -/
structure CSection where
  name : String
  options : SectionOpts
  deriving DecidableEq

/-- A `ConfigParser`'s state: its sections in insertion order. -/
abbrev Config := List CSection

/-- A dictionary fed to `read_dict`: sections of option/value pairs. -/
abbrev PyDict := List (String × List (String × PyValue))

/-- `ConfigParser.set` on one section's options: overwrite an existing option
in place, or append a new one. -/
def setOption (opts : SectionOpts) (k : String) (v : Option String) : SectionOpts :=
  if opts.any (fun kv => kv.1 == k) then
    opts.map (fun kv => if kv.1 == k then (k, v) else kv)
  else opts ++ [(k, v)]

/-- `read_dict` on one section's keys: lower-case each key (`optionxform`),
stringify each value, and `set` them in order. -/
def setOptions (opts : SectionOpts) (kvs : List (String × PyValue)) : SectionOpts :=
  kvs.foldl (fun o kv => setOption o (pyLower kv.1) kv.2.toRaw) opts

/-- `read_dict` for one section: merge into an existing section of that name,
or append a fresh one. -/
def readDictSection (cfg : Config) (sname : String) (kvs : List (String × PyValue)) :
    Config :=
  if cfg.any (fun s => s.name == sname) then
    cfg.map (fun s => if s.name == sname then ⟨s.name, setOptions s.options kvs⟩ else s)
  else cfg ++ [⟨sname, setOptions [] kvs⟩]

/-- `ConfigParser.read_dict`: sections merged in dictionary order. -/
def readDict (cfg : Config) (d : PyDict) : Config :=
  d.foldl (fun c sec => readDictSection c sec.1 sec.2) cfg

/-- `GLOBAL_CONFIG_DEFAULTS` from `config.py`: the Python dict
`{'disable_linters': [], 'only_run': None}`. -/
def GLOBAL_CONFIG_DEFAULTS : List (String × PyValue) :=
  [("disable_linters", .pylist []), ("only_run", .pynone)]

/-- One registered rule, as the engine sees it: output description, declared
default options, and the `check()` entry point called with the rule's own
configuration section, the run context and the document. -/
structure LinterDef where
  description : String
  default_config : List (String × PyValue)
  check : SectionOpts → List String → Element → Option LintCheckResult

/-- `_get_default_linter_configs`: each registered rule's `default_config`
under its `job_linter:<name>` section. -/
def _get_default_linter_configs (linters : List (String × LinterDef)) : PyDict :=
  linters.map (fun p => ("job_linter:" ++ p.1, p.2.default_config))

/-- `_filter_config`: layer the global defaults, every rule's declared
defaults and the caller's raw configuration into a fresh parser, then remove
every section whose name does not start with `job_linter`.  The caller's
object is not mutated. -/
def _filter_config (linters : List (String × LinterDef)) (raw : PyDict) : Config :=
  let c1 := readDict [] [("job_linter", GLOBAL_CONFIG_DEFAULTS)]
  let c2 := readDict c1 (_get_default_linter_configs linters)
  let c3 := readDict c2 raw
  c3.filter (fun s => strStartsWith s.name "job_linter")

/-- Section lookup (`config[section_name]`): `none` models the `KeyError`. -/
def Config.sectionOf (cfg : Config) (sname : String) : Option SectionOpts :=
  (cfg.find? (fun s => s.name == sname)).map CSection.options

/-- Raw option lookup (`config.get(section, option)`): `none` models the
raised error when the section or option is missing. -/
def Config.rawGet (cfg : Config) (sname k : String) : Option (Option String) :=
  match Config.sectionOf cfg sname with
  | none => none
  | some sect => optGet sect k

/-- `GetListConfigParser.getlist`: the stored value put through
`commas_to_list`; `none` models the raised error on a missing section or
option. -/
def getlist (cfg : Config) (sname k : String) : Option (List String) :=
  (Config.rawGet cfg sname k).map commas_to_list

/-- The run-level context: the names of all Jenkins objects in the run
(`RunContext.object_names`). -/
abbrev RunContext := List String

/-- The failure line `lint_job_xml` prints for a failing rule:
`"<doc_name>: <description>: FAIL"`, with `": <detail>"` appended exactly when
detail text is present. -/
def failLine (job_name description : String) (text : Option String) : String :=
  match text with
  | none => job_name ++ ": " ++ description ++ ": FAIL"
  | some t => job_name ++ ": " ++ description ++ ": FAIL" ++ ": " ++ t

/-- `lint_job_xml` from `__init__.py`: iterate the registered rules in order;
skip a rule named in `disable_linters`, or absent from a non-empty
`only_run`; otherwise run its `check()` on the rule's own configuration
section and record a failure line when the outcome's value is falsy.  The
returned pair is the success flag and the printed lines in order; `none`
models a raised exception (missing configuration section, or a rule
raising). -/
def lint_job_xml (linters : List (String × LinterDef)) (ctx : RunContext)
    (job_name : String) (tree : Element) (config : Config) :
    Option (Bool × List String) :=
  match linters with
  | [] => some (true, [])
  | (linter_name, linter) :: rest =>
    match getlist config "job_linter" "disable_linters" with
    | none => none
    | some dis =>
      if dis.contains linter_name then lint_job_xml rest ctx job_name tree config
      else
        match getlist config "job_linter" "only_run" with
        | none => none
        | some only_run =>
          if !only_run.isEmpty && !only_run.contains linter_name then
            lint_job_xml rest ctx job_name tree config
          else
            match Config.sectionOf config ("job_linter:" ++ linter_name) with
            | none => none
            | some sect =>
              match linter.check sect ctx tree with
              | none => none
              | some (result, text) =>
                match lint_job_xml rest ctx job_name tree config with
                | none => none
                | some (success, out) =>
                  if result.value then some (success, out)
                  else some (false, failLine job_name linter.description text :: out)

/-- Whether the engine's run-level filters exclude the rule named `name`:
named in `disable_linters`, or absent from a non-empty `only_run` (both by
exact string equality). -/
def linterFiltered (dis only_run : List String) (name : String) : Bool :=
  dis.contains name || (!only_run.isEmpty && !only_run.contains name)

/-- The registered rules that the run-level filters let through. -/
def relevantLinters (dis only_run : List String)
    (linters : List (String × LinterDef)) : List (String × LinterDef) :=
  linters.filter (fun p => !linterFiltered dis only_run p.1)

/-- The configuration section a rule is run against
(`config["job_linter:" + name]`); total restatement for specifications, with
the empty section standing in for an impossible missing one. -/
def ruleSection (cfg : Config) (name : String) : SectionOpts :=
  (Config.sectionOf cfg ("job_linter:" ++ name)).getD []

/-- The check result of one registered rule on a document, for
specifications; `(PASS, none)` stands in for an impossible exception. -/
def ruleResult (cfg : Config) (ctx : RunContext) (tree : Element)
    (p : String × LinterDef) : LintCheckResult :=
  ((p.2).check (ruleSection cfg p.1) ctx tree).getD (.PASS, none)

/-- `CheckEnvInject` as a registry entry. -/
def checkEnvInjectDef : LinterDef :=
  ⟨"checking environment variable injection",
   [("required_environment_settings", .pystr "")],
   fun sect _ tree => CheckEnvInject.check sect tree⟩

/-- `CheckForEmptyShell` as a registry entry. -/
def checkForEmptyShellDef : LinterDef :=
  ⟨"checking shell builder shell scripts are not empty", [],
   fun _ _ tree => CheckForEmptyShell.check tree⟩

/-- `CheckJobReferences` as a registry entry. -/
def checkJobReferencesDef : LinterDef :=
  ⟨"checking job references", [],
   fun _ ctx tree => CheckJobReferences.check ctx tree⟩

/-- `CheckShebang` as a registry entry. -/
def checkShebangDef : LinterDef :=
  ⟨"checking shebang of shell builders",
   [("allow_default_shebang", .pybool true), ("required_shell_options", .pystr "eux")],
   fun sect _ tree => CheckShebang.check sect tree⟩

/-- `EnsureTimestamps` as a registry entry. -/
def ensureTimestampsDef : LinterDef :=
  ⟨"checking for timestamps", [],
   fun _ _ tree => EnsureTimestamps.check tree⟩

/-- Modelled from the spec: the rule registry `LINTERS` is populated at import
time from the `jjl.linters` packaging entry points, which are declared outside
`src/`; the five concrete rules of `linters.py` are registered under stable
snake_case names, iterated in a deterministic (alphabetical) order. -/
def LINTERS : List (String × LinterDef) :=
  [("check_env_inject", checkEnvInjectDef),
   ("check_for_empty_shell", checkForEmptyShellDef),
   ("check_job_references", checkJobReferencesDef),
   ("check_shebang", checkShebangDef),
   ("ensure_timestamps", ensureTimestampsDef)]

/-- Concrete fixture: a minimal `project` document with no builders. -/
def sampleProject : Element := .mk "project" none []

/-- Concrete fixture: one inline-shell build step with the given script
text. -/
def shellCommand (t : Option String) : Element :=
  .mk "hudson.tasks.Shell" none [.mk "command" t []]

/-- Concrete fixture: a `project` document whose shell build steps carry the
given script texts, in order. -/
def shellProject (txts : List (Option String)) : Element :=
  .mk "project" none [.mk "builders" none (txts.map shellCommand)]

/-- Concrete fixture: a `project` document with a parameterized-trigger
builder referencing the given downstream names, in order. -/
def refsProject (refs : List (Option String)) : Element :=
  .mk "project" none
    [.mk "builders" none
      [.mk "hudson.plugins.parameterizedtrigger.TriggerBuilder" none
        [.mk "configs" none
          [.mk "blocking-config" none (refs.map (fun r => .mk "projects" r []))]]]]

/-- Concrete fixture: a `CheckShebang` configuration section with the given
raw `allow_default_shebang` and `required_shell_options` values. -/
def shebangSection (b ro : String) : SectionOpts :=
  [("allow_default_shebang", some b), ("required_shell_options", some ro)]

end JJL

namespace JJL

theorem LintResult.value_eq_true_iff (r : LintResult) : r.value = true ↔ r ≠ .FAIL := by
  cases r <;> simp [LintResult.value]

theorem checkEach_pass (sc : Option String → Option LintCheckResult) (l : List Element)
    (h : ∀ e ∈ l, ∃ r t, sc e.text = some (r, t) ∧ r ≠ LintResult.FAIL) :
    ShellBuilderLinter.checkEach sc l = some (.PASS, none) := by
  induction l with
  | nil => rfl
  | cons b rest ih =>
    obtain ⟨r, t, hb, hr⟩ := h b (List.mem_cons_self b rest)
    have ih' := ih (fun e he => h e (List.mem_cons_of_mem b he))
    simp [ShellBuilderLinter.checkEach, hb, hr, ih']

theorem checkEach_first_fail (sc : Option String → Option LintCheckResult)
    (pre : List Element) (el : Element) (rest : List Element) (t : Option String)
    (hpre : ∀ e ∈ pre, ∃ r u, sc e.text = some (r, u) ∧ r ≠ LintResult.FAIL)
    (hel : sc el.text = some (.FAIL, t)) :
    ShellBuilderLinter.checkEach sc (pre ++ el :: rest) = some (.FAIL, t) := by
  induction pre with
  | nil => simp [ShellBuilderLinter.checkEach, hel]
  | cons b bs ih =>
    obtain ⟨r, u, hb, hr⟩ := hpre b (List.mem_cons_self b bs)
    have ih' := ih (fun e he => hpre e (List.mem_cons_of_mem b he))
    simp [ShellBuilderLinter.checkEach, hb, hr, ih']

theorem checkEach_isSome (sc : Option String → Option LintCheckResult) (l : List Element)
    (h : ∀ e ∈ l, (sc e.text).isSome = true) :
    (ShellBuilderLinter.checkEach sc l).isSome = true := by
  induction l with
  | nil => rfl
  | cons b rest ih =>
    obtain ⟨⟨r, t⟩, hb⟩ := Option.isSome_iff_exists.mp (h b (List.mem_cons_self b rest))
    have ih' := ih (fun e he => h e (List.mem_cons_of_mem b he))
    by_cases hr : r = LintResult.FAIL <;>
      simp [ShellBuilderLinter.checkEach, hb, hr, ih']

/-- Claim C2: a rule whose declared `root_tag` differs from the document
root's tag reports `Skip` with no detail, whatever `actual_check` would do
(so `actual_check` never runs, and neither document content below the root
nor configuration can influence the result). -/
theorem claim2_root_tag_gate (root_tag : String)
    (actual : Element → Option LintCheckResult) (tree : Element)
    (h : tree.tag ≠ root_tag) :
    Linter.check root_tag actual tree = some (.SKIP, none) := by
  simp [Linter.check, h]

theorem claim2_witness :
    (Element.mk "flow-definition" none []).tag ≠ "project" ∧
    Linter.check "project" (fun _ => some (.FAIL, some "boom"))
      (Element.mk "flow-definition" none []) = some (.SKIP, none) :=
  ⟨by decide, claim2_root_tag_gate "project" (fun _ => some (.FAIL, some "boom"))
    (Element.mk "flow-definition" none []) (by decide)⟩

/-- Claim C5: `CheckForEmptyShell` fails, with no detail text, on the first
shell build step (in document order) whose script text is empty/absent — a
parsed empty `<command/>` element has absent (`none`) text; it skips when the
document has no shell build steps, and passes otherwise. -/
theorem claim5_empty_shell (tree : Element) :
    (findall tree shellXPath = [] →
      CheckForEmptyShell.actual_check tree = some (.SKIP, none))
    ∧ (∀ pre el rest, findall tree shellXPath = pre ++ el :: rest →
        (∀ e ∈ pre, e.text ≠ none) → el.text = none →
        CheckForEmptyShell.actual_check tree = some (.FAIL, none))
    ∧ (findall tree shellXPath ≠ [] →
        (∀ e ∈ findall tree shellXPath, e.text ≠ none) →
        CheckForEmptyShell.actual_check tree = some (.PASS, none)) := by
  refine ⟨?_, ?_, ?_⟩
  · intro h
    simp [CheckForEmptyShell.actual_check, ShellBuilderLinter.actual_check, h]
  · intro pre el rest hsplit hpre hel
    have hne : ¬ (findall tree shellXPath).isEmpty := by
      simp [hsplit]
    simp only [CheckForEmptyShell.actual_check, ShellBuilderLinter.actual_check,
      hne, if_false, Bool.false_eq_true, hsplit]
    rw [if_neg (by simp)]
    apply checkEach_first_fail
    · intro e he
      obtain ⟨s, hs⟩ := Option.ne_none_iff_exists'.mp (hpre e he)
      exact ⟨.PASS, none, by simp [CheckForEmptyShell.shell_check, hs], by simp⟩
    · simp [CheckForEmptyShell.shell_check, hel]
  · intro hne hall
    have hne' : ¬ (findall tree shellXPath).isEmpty := by
      simpa [List.isEmpty_iff] using hne
    simp only [CheckForEmptyShell.actual_check, ShellBuilderLinter.actual_check,
      hne', if_false, Bool.false_eq_true]
    apply checkEach_pass
    intro e he
    obtain ⟨s, hs⟩ := Option.ne_none_iff_exists'.mp (hall e he)
    exact ⟨.PASS, none, by simp [CheckForEmptyShell.shell_check, hs], by simp⟩

theorem claim5_witness :
    CheckForEmptyShell.actual_check (shellProject [some "echo hi", none]) =
      some (.FAIL, none) :=
  (claim5_empty_shell (shellProject [some "echo hi", none])).2.1
    [Element.mk "command" (some "echo hi") []]
    (Element.mk "command" none []) [] rfl
    (by
      intro e he
      rcases List.mem_singleton.mp he with rfl
      simp [Element.text]) rfl

theorem checkRefs_ok_append (object_names : List String) (pre l : List Element)
    (hpre : ∀ e ∈ pre, ∃ p, e.text = some p ∧ object_names.contains p = true) :
    CheckJobReferences.checkRefs object_names (pre ++ l) =
      CheckJobReferences.checkRefs object_names l := by
  induction pre with
  | nil => rfl
  | cons b bs ih =>
    obtain ⟨p, hb, hmem⟩ := hpre b (List.mem_cons_self b bs)
    have ih' := ih (fun e he => hpre e (List.mem_cons_of_mem b he))
    simp only [List.cons_append, CheckJobReferences.checkRefs, hb]
    rw [if_pos hmem]
    exact ih'

/-- Claim C9: `CheckJobReferences` walks the downstream reference nodes in
document order and returns on the first failing one — `Fail` with detail
`"No reference configured"` when the reference text is missing, `Fail` with
detail `"Reference to missing object <name>"` when the text is not among the
run's object names; with zero reference nodes it falls through to `Pass`
(not `Skip`), and when every reference is present and known it passes. -/
theorem claim9_job_references (object_names : List String) (tree : Element) :
    (findall tree jobRefXPath = [] →
      CheckJobReferences.actual_check object_names tree = some (.PASS, none))
    ∧ (∀ pre el rest, findall tree jobRefXPath = pre ++ el :: rest →
        (∀ e ∈ pre, ∃ p, e.text = some p ∧ object_names.contains p = true) →
        ((el.text = none →
          CheckJobReferences.actual_check object_names tree =
            some (.FAIL, some "No reference configured"))
         ∧ (∀ p, el.text = some p → object_names.contains p = false →
          CheckJobReferences.actual_check object_names tree =
            some (.FAIL, some ("Reference to missing object " ++ p)))))
    ∧ ((∀ e ∈ findall tree jobRefXPath,
          ∃ p, e.text = some p ∧ object_names.contains p = true) →
        CheckJobReferences.actual_check object_names tree = some (.PASS, none)) := by
  refine ⟨?_, ?_, ?_⟩
  · intro h
    simp [CheckJobReferences.actual_check, h, CheckJobReferences.checkRefs]
  · intro pre el rest hsplit hpre
    constructor
    · intro hel
      simp only [CheckJobReferences.actual_check, hsplit,
        checkRefs_ok_append object_names pre _ hpre]
      simp [CheckJobReferences.checkRefs, hel]
    · intro p hel hmem
      simp only [CheckJobReferences.actual_check, hsplit,
        checkRefs_ok_append object_names pre _ hpre]
      simp only [CheckJobReferences.checkRefs, hel]
      rw [if_neg (by rw [hmem]; decide)]
  · intro hall
    have := checkRefs_ok_append object_names (findall tree jobRefXPath) [] hall
    simpa [CheckJobReferences.actual_check, CheckJobReferences.checkRefs] using this

theorem claim9_witness :
    CheckJobReferences.actual_check ["other-job", "self"]
      (refsProject [some "other-job"]) = some (.PASS, none) ∧
    CheckJobReferences.actual_check ["other-job", "self"]
      (refsProject [some "missing-job"]) =
      some (.FAIL, some ("Reference to missing object " ++ "missing-job")) :=
  ⟨(claim9_job_references ["other-job", "self"] (refsProject [some "other-job"])).2.2
    (by
      intro e he
      rcases List.mem_singleton.mp he with rfl
      exact ⟨"other-job", rfl, by decide⟩),
   ((claim9_job_references ["other-job", "self"]
      (refsProject [some "missing-job"])).2.1
     [] (Element.mk "projects" (some "missing-job") []) [] rfl
     (by intro e he; cases he)).2 "missing-job" rfl (by decide)⟩

/-- Claim C10: `CheckShebang.shell_check` treats an absent script text as a
per-step `Skip` rather than a failure, so on a project document that has
shell build steps all of whose script texts are absent its overall result is
`Pass`, while `CheckForEmptyShell` fails the very same document. -/
theorem claim10_absent_scripts (sect : SectionOpts) (tree : Element)
    (htag : tree.tag = "project")
    (hne : findall tree shellXPath ≠ [])
    (hall : ∀ e ∈ findall tree shellXPath, e.text = none) :
    CheckShebang.shell_check sect none = some (.SKIP, none)
    ∧ CheckShebang.check sect tree = some (.PASS, none)
    ∧ CheckForEmptyShell.check tree = some (.FAIL, none) := by
  have hne' : ¬ (findall tree shellXPath).isEmpty := by
    simpa [List.isEmpty_iff] using hne
  refine ⟨rfl, ?_, ?_⟩
  · simp only [CheckShebang.check, Linter.check, htag, ne_eq, not_true_eq_false,
      if_false, CheckShebang.actual_check, ShellBuilderLinter.actual_check, hne',
      Bool.false_eq_true]
    apply checkEach_pass
    intro e he
    exact ⟨.SKIP, none, by simp [CheckShebang.shell_check, hall e he], by simp⟩
  · obtain ⟨el, rest, hsplit⟩ := List.exists_cons_of_ne_nil hne
    simp only [CheckForEmptyShell.check, Linter.check, htag, ne_eq, not_true_eq_false,
      if_false, Bool.false_eq_true]
    exact (claim5_empty_shell tree).2.1 [] el rest hsplit (by intro e he; cases he)
      (hall el (by simp [hsplit]))

theorem claim10_witness :
    CheckShebang.shell_check (shebangSection "True" "eux") none = some (.SKIP, none)
    ∧ CheckShebang.check (shebangSection "True" "eux") (shellProject [none, none]) =
        some (.PASS, none)
    ∧ CheckForEmptyShell.check (shellProject [none, none]) = some (.FAIL, none) := by
  have hf : findall (shellProject [none, none]) shellXPath =
      [Element.mk "command" none [], Element.mk "command" none []] := rfl
  refine claim10_absent_scripts (shebangSection "True" "eux")
    (shellProject [none, none]) rfl ?_ ?_
  · rw [hf]; simp
  · intro e he
    rw [hf] at he
    rcases List.mem_cons.mp he with rfl | he'
    · rfl
    · rcases List.mem_singleton.mp he' with rfl
      rfl

theorem string_data_nil_iff (s : String) : s.data = [] ↔ s = "" := by
  cases s with
  | mk d =>
    constructor
    · intro h
      rw [show d = [] from h]
    · intro h
      rw [h]

theorem contains_ext_of_charSubset {ro1 ro2 : String}
    (hext : ∀ c, ro1.data.contains c = ro2.data.contains c) (g : String) :
    charSubset ro1 g = charSubset ro2 g := by
  have hmem : ∀ x, x ∈ ro1.data ↔ x ∈ ro2.data := by
    intro x
    constructor <;> intro hx
    · have h1 : ro1.data.contains x = true := List.elem_iff.mpr hx
      rw [hext x] at h1
      exact List.elem_iff.mp h1
    · have h1 : ro2.data.contains x = true := List.elem_iff.mpr hx
      rw [← hext x] at h1
      exact List.elem_iff.mp h1
  rw [Bool.eq_iff_iff]
  simp only [charSubset, List.all_eq_true]
  constructor <;> intro h x hx
  · exact h x ((hmem x).mpr hx)
  · exact h x ((hmem x).mp hx)

theorem check_shell_shebang_ext {ro1 ro2 : String}
    (hext : ∀ c, ro1.data.contains c = ro2.data.contains c) (first_line : String) :
    CheckShebang.check_shell_shebang ro1 first_line =
      CheckShebang.check_shell_shebang ro2 first_line := by
  unfold CheckShebang.check_shell_shebang
  rcases hs : pySplit first_line ' ' with _ | ⟨a, _ | ⟨p1, more⟩⟩
  · rfl
  · rfl
  · cases hg : shellOptionsGroup p1 with
    | none => simp [hg]
    | some g =>
      simp only [hg]
      exact contains_ext_of_charSubset hext g

/-- Claim C4: the `CheckShebang` behaviours — literal pass/fail scenarios at
the default configuration, the default-shebang cases for scripts whose first
line does not start with `#!`, the non-shell-shebang skip, the unconditional
pass when `required_shell_options` is empty, the purely set-based (order- and
duplicate-insensitive) required-options test, the document-level `Skip` with
no shell steps, and the return on the first failing step. -/
theorem claim4_shebang :
    (CheckShebang.shell_check (shebangSection "True" "eux") (some "#!/bin/sh -eux") =
        some (.PASS, none))
    ∧ (CheckShebang.shell_check (shebangSection "True" "eux") (some "#!/bin/sh -eu") =
        some (.FAIL, some "Shebang is #!/bin/sh -eu"))
    ∧ (∀ ro s first rest, splitlinesPy s = first :: rest →
        strStartsWith first "#!" = false →
        CheckShebang.shell_check (shebangSection "True" ro) (some s) = some (.SKIP, none)
        ∧ CheckShebang.shell_check (shebangSection "False" ro) (some s) =
            some (.FAIL, some jenkinsDefaultDetail))
    ∧ (CheckShebang.shell_check (shebangSection "True" "eux")
        (some "#!/usr/bin/env python") = some (.SKIP, none))
    ∧ (∀ b s first rest, splitlinesPy s = first :: rest →
        strStartsWith first "#!" = true → matchesShellShebang first = true →
        CheckShebang.shell_check (shebangSection b "") (some s) = some (.PASS, none))
    ∧ (∀ b sc ro1 ro2, (∀ c, ro1.data.contains c = ro2.data.contains c) →
        CheckShebang.shell_check (shebangSection b ro1) sc =
          CheckShebang.shell_check (shebangSection b ro2) sc)
    ∧ (∀ sect tree, tree.tag = "project" → findall tree shellXPath = [] →
        CheckShebang.check sect tree = some (.SKIP, none))
    ∧ (∀ sect tree pre el rest t, findall tree shellXPath = pre ++ el :: rest →
        (∀ e ∈ pre, ∃ r u, CheckShebang.shell_check sect e.text = some (r, u) ∧
          r ≠ LintResult.FAIL) →
        CheckShebang.shell_check sect el.text = some (.FAIL, t) →
        CheckShebang.actual_check sect tree = some (.FAIL, t)) := by
  refine ⟨rfl, rfl, ?_, rfl, ?_, ?_, ?_, ?_⟩
  · intro ro s first rest h hstart
    constructor
    · simp only [CheckShebang.shell_check, h, hstart, Bool.not_false, if_true]
      rfl
    · simp only [CheckShebang.shell_check, h, hstart, Bool.not_false, if_true]
      rfl
  · intro b s first rest h hstart hshell
    simp only [CheckShebang.shell_check, h, hstart, hshell, Bool.not_true,
      Bool.false_eq_true, if_false]
    rfl
  · intro b sc ro1 ro2 hext
    have hnil : ro1 = "" ↔ ro2 = "" := by
      rw [← string_data_nil_iff, ← string_data_nil_iff]
      constructor <;> intro h <;> by_contra h2
      · obtain ⟨c, cs, hc⟩ := List.exists_cons_of_ne_nil h2
        have hcc := hext c
        rw [h, hc] at hcc
        simp at hcc
      · obtain ⟨c, cs, hc⟩ := List.exists_cons_of_ne_nil h2
        have hcc := hext c
        rw [h, hc] at hcc
        simp at hcc
    cases sc with
    | none => rfl
    | some s =>
      rcases hsp : splitlinesPy s with _ | ⟨first, rest⟩
      · simp [CheckShebang.shell_check, hsp]
      · simp only [CheckShebang.shell_check, hsp]
        by_cases hst : strStartsWith first "#!" = true
        · simp only [hst, Bool.not_true, Bool.false_eq_true, if_false]
          by_cases hm : matchesShellShebang first = true
          · simp only [hm, Bool.not_true, Bool.false_eq_true, if_false]
            have o1 : optGet (shebangSection b ro1) "required_shell_options" =
                some (some ro1) := rfl
            have o2 : optGet (shebangSection b ro2) "required_shell_options" =
                some (some ro2) := rfl
            simp only [o1, o2]
            by_cases he1 : ro1 = ""
            · have he2 : ro2 = "" := hnil.mp he1
              subst he1; subst he2; rfl
            · have he2 : ro2 ≠ "" := fun hh => he1 (hnil.mpr hh)
              have b1 : (ro1 == "") = false := by simp [he1]
              have b2 : (ro2 == "") = false := by simp [he2]
              simp only [b1, b2, Bool.false_eq_true, if_false]
              rw [check_shell_shebang_ext hext]
          · have hm' : matchesShellShebang first = false := by
              simpa using hm
            simp [hm']
        · have hst' : strStartsWith first "#!" = false := by
            simpa using hst
          simp only [hst', Bool.not_false, if_true]
          rfl
  · intro sect tree htag hempty
    simp [CheckShebang.check, Linter.check, htag, CheckShebang.actual_check,
      ShellBuilderLinter.actual_check, hempty]
  · intro sect tree pre el rest t hsplit hpre hel
    simp only [CheckShebang.actual_check, ShellBuilderLinter.actual_check, hsplit]
    rw [if_neg (by simp)]
    exact checkEach_first_fail _ pre el rest t hpre hel

theorem claim4_witness :
    (CheckShebang.shell_check (shebangSection "True" "eux") (some "echo hi") =
        some (.SKIP, none)
      ∧ CheckShebang.shell_check (shebangSection "False" "eux") (some "echo hi") =
        some (.FAIL, some jenkinsDefaultDetail))
    ∧ CheckShebang.shell_check (shebangSection "True" "") (some "#!/bin/zsh") =
        some (.PASS, none)
    ∧ CheckShebang.shell_check (shebangSection "True" "uxe") (some "#!/bin/sh -eux") =
        CheckShebang.shell_check (shebangSection "True" "eux") (some "#!/bin/sh -eux") :=
  ⟨claim4_shebang.2.2.1 "eux" "echo hi" "echo hi" [] rfl (by decide),
   claim4_shebang.2.2.2.2.1 "True" "#!/bin/zsh" "#!/bin/zsh" [] rfl (by decide)
     (by decide),
   claim4_shebang.2.2.2.2.2.1 "True" (some "#!/bin/sh -eux") "uxe" "eux"
     (by
       intro c
       have h1 : ("uxe" : String).data = ['u', 'x', 'e'] := rfl
       have h2 : ("eux" : String).data = ['e', 'u', 'x'] := rfl
       rw [h1, h2]
       simp only [List.contains_cons, List.contains_nil, Bool.or_false]
       cases c == 'u' <;> cases c == 'x' <;> cases c == 'e' <;> rfl)⟩

theorem splitlinesGo_ne_nil (cs acc : List Char) (h : cs ≠ [] ∨ acc ≠ []) :
    splitlinesGo false cs acc ≠ [] := by
  induction cs generalizing acc with
  | nil =>
    have hacc : acc ≠ [] := h.resolve_left (fun hh => hh rfl)
    have he : ¬ acc.isEmpty = true := by simpa [List.isEmpty_iff] using hacc
    simp [splitlinesGo, he]
  | cons c rest ih =>
    cases hn : c == '\n' with
    | true => simp [splitlinesGo, hn]
    | false =>
      cases hr : c == '\r' with
      | true => simp [splitlinesGo, hn, hr]
      | false =>
        simp only [splitlinesGo, hn, hr, Bool.false_and, Bool.false_eq_true,
          if_false]
        exact ih (c :: acc) (Or.inr (List.cons_ne_nil c acc))

theorem splitlinesPy_ne_nil (s : String) (h : s ≠ "") : splitlinesPy s ≠ [] := by
  apply splitlinesGo_ne_nil
  left
  intro hd
  exact h ((string_data_nil_iff s).mp hd)

theorem checkRefs_isSome (object_names : List String) (l : List Element) :
    (CheckJobReferences.checkRefs object_names l).isSome = true := by
  induction l with
  | nil => rfl
  | cons node rest ih =>
    cases ht : node.text with
    | none => simp [CheckJobReferences.checkRefs, ht]
    | some p =>
      simp only [CheckJobReferences.checkRefs, ht]
      split
      · exact ih
      · rfl

theorem check_properties_isSome (txt : String) (req : List String) :
    (CheckEnvInject.check_properties txt req).isSome = true := by
  unfold CheckEnvInject.check_properties
  rcases h : CheckEnvInject.findMissing (pySplit txt '\n') req with _ | r <;>
    simp [h]

theorem Linter.check_isSome (root_tag : String)
    (actual : Element → Option LintCheckResult) (tree : Element)
    (h : (actual tree).isSome = true) :
    (Linter.check root_tag actual tree).isSome = true := by
  unfold Linter.check
  split
  · rfl
  · exact h

/-- Claim C7 counterexample: on the empty-string script text (an input the
claim explicitly includes), `CheckShebang`'s per-step check raises — Python's
`"".splitlines()` is `[]`, so `shell_script.splitlines()[0]` raises
`IndexError` (modelled as `none`) — at the per-step level and when a document
carries such a step. -/
theorem claim7_counterexample :
    CheckShebang.shell_check (shebangSection "True" "eux") (some "") = none
    ∧ CheckShebang.check (shebangSection "True" "eux") (shellProject [some ""]) =
        none :=
  ⟨rfl, rfl⟩

/-- Claim C7 (amended): every rule's `check()` terminates with one of the
three outcomes and raises no exception on every well-formed document — one
whose shell script texts, coming from a parsed document, are absent or
non-empty — and well-formed configuration (its declared options present and
parseable).  On the empty-string script text, which no parsed document
produces, `CheckShebang.shell_check` raises `IndexError`
(`claim7_counterexample`). -/
theorem claim7_amended_totality (sectE sectS : SectionOpts)
    (object_names : List String) (tree : Element)
    (hscripts : ∀ e ∈ findall tree shellXPath, e.text ≠ some "")
    (hbool : ∃ bv, getbooleanOpt sectS "allow_default_shebang" = some bv)
    (hro : ∃ ro, optGet sectS "required_shell_options" = some (some ro))
    (henv : ∃ v, optGet sectE "required_environment_settings" = some v) :
    (EnsureTimestamps.check tree).isSome = true
    ∧ (CheckForEmptyShell.check tree).isSome = true
    ∧ (CheckJobReferences.check object_names tree).isSome = true
    ∧ (CheckEnvInject.check sectE tree).isSome = true
    ∧ (CheckShebang.check sectS tree).isSome = true := by
  refine ⟨?_, ?_, ?_, ?_, ?_⟩
  · apply Linter.check_isSome
    simp [EnsureTimestamps.actual_check]
  · apply Linter.check_isSome
    unfold CheckForEmptyShell.actual_check ShellBuilderLinter.actual_check
    split
    · rfl
    · apply checkEach_isSome
      intro e _
      cases e.text <;> simp [CheckForEmptyShell.shell_check]
  · apply Linter.check_isSome
    exact checkRefs_isSome object_names _
  · apply Linter.check_isSome
    obtain ⟨v, hv⟩ := henv
    unfold CheckEnvInject.actual_check
    simp only [hv]
    split
    · rfl
    · split
      · rfl
      · split
        · rfl
        · exact check_properties_isSome _ _
  · apply Linter.check_isSome
    unfold CheckShebang.actual_check ShellBuilderLinter.actual_check
    split
    · rfl
    · apply checkEach_isSome
      intro e he
      cases ht : e.text with
      | none => rfl
      | some s =>
        have hs : s ≠ "" := by
          intro hh
          exact hscripts e he (by rw [ht, hh])
        obtain ⟨first, rest, hsp⟩ :=
          List.exists_cons_of_ne_nil (splitlinesPy_ne_nil s hs)
        simp only [CheckShebang.shell_check, hsp]
        obtain ⟨bv, hbv⟩ := hbool
        obtain ⟨ro, hro'⟩ := hro
        split
        · unfold CheckShebang.handle_jenkins_default
          rw [hbv]
          cases bv <;> rfl
        · split
          · rfl
          · simp only [hro']
            split
            · rfl
            · split <;> rfl

theorem claim7_witness :
    (∀ e ∈ findall (shellProject [some "#!/bin/sh -eux"]) shellXPath,
      e.text ≠ some "")
    ∧ (CheckShebang.check (shebangSection "True" "eux")
        (shellProject [some "#!/bin/sh -eux"])).isSome = true := by
  have hscripts : ∀ e ∈ findall (shellProject [some "#!/bin/sh -eux"]) shellXPath,
      e.text ≠ some "" := by
    intro e he
    have hf : findall (shellProject [some "#!/bin/sh -eux"]) shellXPath =
        [Element.mk "command" (some "#!/bin/sh -eux") []] := rfl
    rw [hf] at he
    rcases List.mem_singleton.mp he with rfl
    simp [Element.text]
  exact ⟨hscripts,
    (claim7_amended_totality [("required_environment_settings", some "")]
      (shebangSection "True" "eux") [] (shellProject [some "#!/bin/sh -eux"])
      hscripts ⟨true, rfl⟩ ⟨"eux", rfl⟩
      ⟨some "", rfl⟩).2.2.2.2⟩

/-- Claim C6 counterexample: the raw configuration `{"job_linterx": {}}` is
caller-supplied input on which the effective configuration keeps the section
`job_linterx`, whose name neither equals `job_linter` nor has the form
`job_linter:<rule name>` — the filter in `_filter_config` tests only
`startswith('job_linter')`. -/
theorem claim6_counterexample :
    ¬ (∀ s ∈ _filter_config LINTERS [("job_linterx", [])],
        s.name = "job_linter" ∨ ∃ p ∈ LINTERS, s.name = "job_linter:" ++ p.1) := by
  intro h
  have hmem : (⟨"job_linterx", []⟩ : CSection) ∈
      _filter_config LINTERS [("job_linterx", [])] := by decide
  rcases h ⟨"job_linterx", []⟩ hmem with h1 | ⟨p, hp, h2⟩
  · exact absurd h1 (by decide)
  · have h10 : (['x'] : List Char) = ':' :: p.1.data :=
      congrArg (fun s : String => s.data.drop 10) h2
    injection h10 with hx _
    exact absurd hx (by decide)

/-- Claim C6 (amended): after `_filter_config`, every surviving section's
name starts with `job_linter` — the reserved section itself and all
`job_linter:<rule>` sections survive, but so does any user section whose name
merely extends `job_linter` (such as `job_linterx`); only sections whose
names do not start with `job_linter` are removed. -/
theorem claim6_amended (linters : List (String × LinterDef)) (raw : PyDict) :
    ∀ s ∈ _filter_config linters raw, strStartsWith s.name "job_linter" = true := by
  intro s hs
  exact (List.mem_filter.mp hs).2

theorem claim6_witness :
    strStartsWith
      (CSection.name ⟨"job_linter", [("disable_linters", some "[]"), ("only_run", none)]⟩)
      "job_linter" = true :=
  claim6_amended LINTERS []
    ⟨"job_linter", [("disable_linters", some "[]"), ("only_run", none)]⟩
    (by decide)

/-- Claim C8: building the effective configuration from an empty user
override yields exactly the `job_linter` section plus one `job_linter:<rule>`
section per registered rule with its declared defaults — but, contrary to the
claim, the `disable_linters` global default does not parse to the empty list:
`read_dict` stores `str([])`, the literal string `"[]"`, so `getlist` returns
`["[]"]` (harmless only because no rule is named `"[]"`); `only_run` is
value-less and parses to `[]` as claimed. -/
theorem claim8_code_bug_eval :
    (_filter_config LINTERS []).map CSection.name =
      ["job_linter", "job_linter:check_env_inject", "job_linter:check_for_empty_shell",
       "job_linter:check_job_references", "job_linter:check_shebang",
       "job_linter:ensure_timestamps"]
    ∧ Config.rawGet (_filter_config LINTERS []) "job_linter" "disable_linters" =
        some (some "[]")
    ∧ getlist (_filter_config LINTERS []) "job_linter" "disable_linters" = some ["[]"]
    ∧ getlist (_filter_config LINTERS []) "job_linter" "only_run" = some []
    ∧ Config.sectionOf (_filter_config LINTERS []) "job_linter:check_shebang" =
        some [("allow_default_shebang", some "True"), ("required_shell_options", some "eux")]
    ∧ Config.sectionOf (_filter_config LINTERS []) "job_linter:check_env_inject" =
        some [("required_environment_settings", some "")]
    ∧ Config.sectionOf (_filter_config LINTERS []) "job_linter:ensure_timestamps" = some []
    ∧ ["[]"] ≠ ([] : List String) :=
  ⟨rfl, rfl, rfl, rfl, rfl, rfl, rfl, by decide⟩

/-- Claim C3: a rule named in the parsed `disable_linters` list is skipped
entirely, whatever `only_run` holds (the disable check runs first); with a
non-empty `only_run` not naming the rule it is skipped entirely; and both
filters match by exact string equality, so when every `disable_linters` entry
differs from the rule's name (for instance is a strict prefix of it) and
`only_run` is empty or names the rule exactly, the rule is invoked — its
`check()` result enters the engine's outcome. -/
theorem claim3_filtering (rest : List (String × LinterDef)) (n : String)
    (d : LinterDef) (ctx : RunContext) (job : String) (tree : Element)
    (cfg : Config) :
    (∀ dis, getlist cfg "job_linter" "disable_linters" = some dis →
      dis.contains n = true →
      lint_job_xml ((n, d) :: rest) ctx job tree cfg =
        lint_job_xml rest ctx job tree cfg)
    ∧ (∀ dis only_run, getlist cfg "job_linter" "disable_linters" = some dis →
        getlist cfg "job_linter" "only_run" = some only_run →
        only_run ≠ [] → only_run.contains n = false →
        lint_job_xml ((n, d) :: rest) ctx job tree cfg =
          lint_job_xml rest ctx job tree cfg)
    ∧ (∀ dis only_run, getlist cfg "job_linter" "disable_linters" = some dis →
        (∀ p ∈ dis, p ≠ n) →
        getlist cfg "job_linter" "only_run" = some only_run →
        (only_run = [] ∨ only_run.contains n = true) →
        lint_job_xml ((n, d) :: rest) ctx job tree cfg =
          (match Config.sectionOf cfg ("job_linter:" ++ n) with
           | none => none
           | some sect =>
             match d.check sect ctx tree with
             | none => none
             | some (result, text) =>
               match lint_job_xml rest ctx job tree cfg with
               | none => none
               | some (success, out) =>
                 if result.value then some (success, out)
                 else some (false, failLine job d.description text :: out))) := by
  refine ⟨?_, ?_, ?_⟩
  · intro dis hd hc
    simp only [lint_job_xml, hd]
    rw [if_pos hc]
  · intro dis only_run hd ho hne hc
    simp only [lint_job_xml, hd, ho]
    by_cases hdis : dis.contains n = true
    · rw [if_pos hdis]
    · rw [if_neg hdis]
      have h1 : only_run.isEmpty = false := by
        simpa [List.isEmpty_iff] using hne
      rw [if_pos (by rw [h1, hc]; rfl)]
  · intro dis only_run hd hdis ho honly
    have hc : dis.contains n = false := by
      rcases hcc : dis.contains n with _ | _
      · rfl
      · obtain ⟨x, hx, hbeq⟩ := List.contains_iff_exists_mem_beq.mp hcc
        exact absurd (eq_of_beq hbeq).symm (hdis x hx)
    simp only [lint_job_xml, hd, ho]
    rw [if_neg (by rw [hc]; exact Bool.false_ne_true)]
    have hcond : (!only_run.isEmpty && !only_run.contains n) = false := by
      rcases honly with rfl | hc2
      · rfl
      · rw [hc2]
        exact Bool.and_false _
    rw [if_neg (by rw [hcond]; exact Bool.false_ne_true)]

theorem claim3_witness :
    lint_job_xml [("check_shebang", checkShebangDef)] [] "job" sampleProject
        (_filter_config LINTERS
          [("job_linter", [("disable_linters", PyValue.pystr "check_shebang")])]) =
      lint_job_xml [] [] "job" sampleProject
        (_filter_config LINTERS
          [("job_linter", [("disable_linters", PyValue.pystr "check_shebang")])]) :=
  (claim3_filtering [] "check_shebang" checkShebangDef [] "job" sampleProject
    (_filter_config LINTERS
      [("job_linter", [("disable_linters", PyValue.pystr "check_shebang")])])).1
    ["check_shebang"] rfl rfl

theorem lint_job_xml_spec (cfg : Config) (linters : List (String × LinterDef))
    (ctx : RunContext) (job : String) (tree : Element) (dis only_run : List String)
    (hd : getlist cfg "job_linter" "disable_linters" = some dis)
    (ho : getlist cfg "job_linter" "only_run" = some only_run)
    (hs : ∀ p ∈ linters, (Config.sectionOf cfg ("job_linter:" ++ p.1)).isSome = true)
    (hc : ∀ p ∈ linters,
      ((p.2).check (ruleSection cfg p.1) ctx tree).isSome = true) :
    lint_job_xml linters ctx job tree cfg =
      some ((relevantLinters dis only_run linters).all
              (fun p => (ruleResult cfg ctx tree p).1 != LintResult.FAIL),
            ((relevantLinters dis only_run linters).filter
              (fun p => (ruleResult cfg ctx tree p).1 == LintResult.FAIL)).map
              (fun p => failLine job (p.2).description (ruleResult cfg ctx tree p).2)) := by
  induction linters with
  | nil => rfl
  | cons q ps ih =>
    obtain ⟨n, d⟩ := q
    have hsec := hs (n, d) (List.mem_cons_self (n, d) ps)
    have hchk := hc (n, d) (List.mem_cons_self (n, d) ps)
    have ih' := ih (fun p hp => hs p (List.mem_cons_of_mem (n, d) hp))
      (fun p hp => hc p (List.mem_cons_of_mem (n, d) hp))
    simp only [lint_job_xml, hd, ho]
    by_cases hdis : dis.contains n = true
    · rw [if_pos hdis]
      have hfil : linterFiltered dis only_run n = true := by
        unfold linterFiltered
        rw [hdis]
        rfl
      have hrel : relevantLinters dis only_run ((n, d) :: ps) =
          relevantLinters dis only_run ps := by
        simp [relevantLinters, List.filter_cons, hfil]
      rw [ih', hrel]
    · rw [if_neg hdis]
      by_cases honly : (!only_run.isEmpty && !only_run.contains n) = true
      · rw [if_pos honly]
        have hfil : linterFiltered dis only_run n = true := by
          unfold linterFiltered
          rw [honly]
          exact Bool.or_true _
        have hrel : relevantLinters dis only_run ((n, d) :: ps) =
            relevantLinters dis only_run ps := by
          simp [relevantLinters, List.filter_cons, hfil]
        rw [ih', hrel]
      · rw [if_neg honly]
        have hdis' : dis.contains n = false := by
          rcases h' : dis.contains n with _ | _
          · rfl
          · exact absurd h' hdis
        have honly' : (!only_run.isEmpty && !only_run.contains n) = false := by
          rcases h' : (!only_run.isEmpty && !only_run.contains n) with _ | _
          · rfl
          · exact absurd h' honly
        have hfil : linterFiltered dis only_run n = false := by
          simp only [linterFiltered, hdis', honly', Bool.or_self]
        have hrel : relevantLinters dis only_run ((n, d) :: ps) =
            (n, d) :: relevantLinters dis only_run ps := by
          simp [relevantLinters, List.filter_cons, hfil]
        obtain ⟨sect, hsect⟩ := Option.isSome_iff_exists.mp hsec
        have hrs : ruleSection cfg n = sect := by
          simp [ruleSection, hsect]
        obtain ⟨⟨r, t⟩, hck⟩ := Option.isSome_iff_exists.mp hchk
        have hck' : d.check sect ctx tree = some (r, t) := by
          rw [← hrs]
          exact hck
        have hrr : ruleResult cfg ctx tree (n, d) = (r, t) := by
          unfold ruleResult
          show (d.check (ruleSection cfg n) ctx tree).getD (LintResult.PASS, none) =
            (r, t)
          rw [hrs, hck']
          rfl
        simp only [hsect, hck', ih', hrel, List.all_cons, List.filter_cons, hrr]
        by_cases hr : r = LintResult.FAIL
        · subst hr
          simp [LintResult.value, failLine, hrr]
        · have hv : r.value = true := (LintResult.value_eq_true_iff r).mpr hr
          have hbne : (r != LintResult.FAIL) = true := by
            simpa using hr
          have hbeq : (r == LintResult.FAIL) = false := by
            simpa using hr
          simp [hv, hbne, hbeq]

theorem isSome_opt_map {α β : Type} (f : α → β) (o : Option α) :
    (o.map f).isSome = o.isSome := by
  cases o <;> rfl

theorem optGet_setOption_isSome (opts : SectionOpts) (k : String) (v : Option String)
    (t : String) (h : (optGet opts t).isSome = true) :
    (optGet (setOption opts k v) t).isSome = true := by
  unfold optGet at h ⊢
  rw [isSome_opt_map] at h ⊢
  rw [List.find?_isSome] at h ⊢
  obtain ⟨kv, hmem, hkv⟩ := h
  unfold setOption
  split
  · refine ⟨if kv.1 == k then (k, v) else kv, List.mem_map.mpr ⟨kv, hmem, rfl⟩, ?_⟩
    by_cases hk : (kv.1 == k) = true
    · rw [if_pos hk]
      show (k == t) = true
      rw [← eq_of_beq hk]
      exact hkv
    · rw [if_neg hk]
      exact hkv
  · exact ⟨kv, List.mem_append.mpr (Or.inl hmem), hkv⟩

theorem optGet_setOptions_isSome (kvs : List (String × PyValue)) (opts : SectionOpts)
    (t : String) (h : (optGet opts t).isSome = true) :
    (optGet (setOptions opts kvs) t).isSome = true := by
  induction kvs generalizing opts with
  | nil => exact h
  | cons kv rest ih =>
    simp only [setOptions, List.foldl_cons]
    exact ih _ (optGet_setOption_isSome _ _ _ _ h)

theorem sectionOf_readDictSection_cases (cfg : Config) (sname : String)
    (kvs : List (String × PyValue)) (t : String) :
    Config.sectionOf (readDictSection cfg sname kvs) t = Config.sectionOf cfg t
    ∨ (∃ opts, Config.sectionOf cfg t = some opts ∧
        Config.sectionOf (readDictSection cfg sname kvs) t =
          some (setOptions opts kvs))
    ∨ (Config.sectionOf cfg t = none ∧
        Config.sectionOf (readDictSection cfg sname kvs) t =
          some (setOptions [] kvs)) := by
  unfold readDictSection Config.sectionOf
  split
  · rw [List.find?_map]
    have hcomp : ((fun s : CSection => s.name == t) ∘
        (fun s : CSection =>
          if s.name == sname then ⟨s.name, setOptions s.options kvs⟩ else s)) =
        fun s : CSection => s.name == t := by
      funext s
      by_cases hsn : (s.name == sname) = true
      · have h' : s.name = sname := eq_of_beq hsn
        simp [h']
      · have h' : ¬ s.name = sname := fun hh => hsn (by rw [hh]; exact beq_self_eq_true sname)
        simp [h']
    rw [hcomp]
    cases hf : cfg.find? (fun s => s.name == t) with
    | none => left; rfl
    | some s0 =>
      by_cases hsn : (s0.name == sname) = true
      · right; left
        refine ⟨s0.options, rfl, ?_⟩
        have h' : s0.name = sname := eq_of_beq hsn
        simp [h']
      · left
        have h' : ¬ s0.name = sname := fun hh => hsn (by rw [hh]; exact beq_self_eq_true sname)
        simp [h']
  · rw [List.find?_append]
    cases hf : cfg.find? (fun s => s.name == t) with
    | some s0 => left; rfl
    | none =>
      by_cases ht : (sname == t) = true
      · right; right
        refine ⟨rfl, ?_⟩
        simp [List.find?_cons_of_pos, ht]
      · left
        simp [List.find?_cons_of_neg, ht]

theorem sectionOf_isSome_readDictSection (cfg : Config) (sname : String)
    (kvs : List (String × PyValue)) (t : String)
    (h : (Config.sectionOf cfg t).isSome = true) :
    (Config.sectionOf (readDictSection cfg sname kvs) t).isSome = true := by
  rcases sectionOf_readDictSection_cases cfg sname kvs t with heq | ⟨opts, h1, h2⟩ | ⟨h1, h2⟩
  · rw [heq]; exact h
  · rw [h2]; rfl
  · rw [h2]; rfl

theorem rawGet_isSome_readDictSection (cfg : Config) (sname : String)
    (kvs : List (String × PyValue)) (t k : String)
    (h : (Config.rawGet cfg t k).isSome = true) :
    (Config.rawGet (readDictSection cfg sname kvs) t k).isSome = true := by
  rcases sectionOf_readDictSection_cases cfg sname kvs t with heq | ⟨opts, h1, h2⟩ | ⟨h1, h2⟩
  · unfold Config.rawGet at h ⊢
    rw [heq]
    exact h
  · unfold Config.rawGet at h ⊢
    rw [h1] at h
    rw [h2]
    exact optGet_setOptions_isSome _ _ _ h
  · unfold Config.rawGet at h
    rw [h1] at h
    exact absurd h (by simp)

theorem sectionOf_readDictSection_self (cfg : Config) (sname : String)
    (kvs : List (String × PyValue)) :
    (Config.sectionOf (readDictSection cfg sname kvs) sname).isSome = true := by
  unfold readDictSection Config.sectionOf
  split
  · next h =>
    rw [isSome_opt_map, List.find?_isSome]
    obtain ⟨s, hs, hsn⟩ := List.any_eq_true.mp h
    refine ⟨if s.name == sname then ⟨s.name, setOptions s.options kvs⟩ else s,
      List.mem_map.mpr ⟨s, hs, rfl⟩, ?_⟩
    rw [if_pos hsn]
    exact hsn
  · rw [isSome_opt_map, List.find?_isSome]
    exact ⟨⟨sname, setOptions [] kvs⟩,
      List.mem_append.mpr (Or.inr (List.mem_singleton.mpr rfl)), by simp⟩

theorem sectionOf_isSome_readDict (d : PyDict) (cfg : Config) (t : String)
    (h : (Config.sectionOf cfg t).isSome = true) :
    (Config.sectionOf (readDict cfg d) t).isSome = true := by
  induction d generalizing cfg with
  | nil => exact h
  | cons e rest ih =>
    simp only [readDict, List.foldl_cons]
    exact ih _ (sectionOf_isSome_readDictSection _ _ _ _ h)

theorem rawGet_isSome_readDict (d : PyDict) (cfg : Config) (t k : String)
    (h : (Config.rawGet cfg t k).isSome = true) :
    (Config.rawGet (readDict cfg d) t k).isSome = true := by
  induction d generalizing cfg with
  | nil => exact h
  | cons e rest ih =>
    simp only [readDict, List.foldl_cons]
    exact ih _ (rawGet_isSome_readDictSection _ _ _ _ _ h)

theorem sectionOf_readDict_of_mem (d : PyDict) (cfg : Config) (s : String)
    (kvs : List (String × PyValue)) (h : (s, kvs) ∈ d) :
    (Config.sectionOf (readDict cfg d) s).isSome = true := by
  induction d generalizing cfg with
  | nil => cases h
  | cons e rest ih =>
    simp only [readDict, List.foldl_cons]
    rcases List.mem_cons.mp h with heq | hmem
    · cases heq
      exact sectionOf_isSome_readDict rest _ s
        (sectionOf_readDictSection_self cfg s kvs)
    · exact ih _ hmem

theorem sectionOf_filter (cfg : Config) (t : String)
    (ht : strStartsWith t "job_linter" = true) :
    Config.sectionOf (cfg.filter (fun s => strStartsWith s.name "job_linter")) t =
      Config.sectionOf cfg t := by
  induction cfg with
  | nil => rfl
  | cons s rest ih =>
    unfold Config.sectionOf at ih ⊢
    by_cases hs : (s.name == t) = true
    · have hname : s.name = t := eq_of_beq hs
      have hkeep : strStartsWith s.name "job_linter" = true := by
        rw [hname]
        exact ht
      rw [List.filter_cons, if_pos hkeep,
        @List.find?_cons_of_pos CSection (fun q => q.name == t) s
          (List.filter (fun q => strStartsWith q.name "job_linter") rest) hs,
        @List.find?_cons_of_pos CSection (fun q => q.name == t) s rest hs]
    · rw [List.filter_cons]
      by_cases hf : strStartsWith s.name "job_linter" = true
      · rw [if_pos hf,
          @List.find?_cons_of_neg CSection (fun q => q.name == t) s
            (List.filter (fun q => strStartsWith q.name "job_linter") rest) hs,
          @List.find?_cons_of_neg CSection (fun q => q.name == t) s rest hs]
        exact ih
      · rw [if_neg hf,
          @List.find?_cons_of_neg CSection (fun q => q.name == t) s rest hs]
        exact ih

theorem rawGet_filter (cfg : Config) (t k : String)
    (ht : strStartsWith t "job_linter" = true) :
    Config.rawGet (cfg.filter (fun s => strStartsWith s.name "job_linter")) t k =
      Config.rawGet cfg t k := by
  unfold Config.rawGet
  rw [sectionOf_filter cfg t ht]

/-- Claim C1: on any effective configuration (an output of `_filter_config`),
as long as every registered rule's `check()` returns an outcome,
`lint_job_xml` raises nothing and returns true exactly when no non-filtered
rule's `check()` returns `Fail` (`Pass` and `Skip` never fail a document),
and the recorded lines are exactly one
`"<doc_name>: <description>: FAIL"` line — with `": <detail>"` appended
exactly when detail text is present (`failLine`) — per non-filtered rule
whose outcome is `Fail`, in registry order. -/
theorem claim1_engine (linters : List (String × LinterDef)) (ctx : RunContext)
    (job : String) (tree : Element) (raw : PyDict)
    (hc : ∀ p ∈ linters,
      ((p.2).check (ruleSection (_filter_config linters raw) p.1) ctx tree).isSome =
        true) :
    ∃ dis only_run b out,
      getlist (_filter_config linters raw) "job_linter" "disable_linters" = some dis ∧
      getlist (_filter_config linters raw) "job_linter" "only_run" = some only_run ∧
      lint_job_xml linters ctx job tree (_filter_config linters raw) = some (b, out) ∧
      (b = true ↔ ∀ p ∈ relevantLinters dis only_run linters,
        (ruleResult (_filter_config linters raw) ctx tree p).1 ≠ LintResult.FAIL) ∧
      out = ((relevantLinters dis only_run linters).filter
              (fun p => (ruleResult (_filter_config linters raw) ctx tree p).1 ==
                LintResult.FAIL)).map
              (fun p => failLine job (p.2).description
                (ruleResult (_filter_config linters raw) ctx tree p).2) := by
  have hfl : _filter_config linters raw =
      (readDict (readDict (readDict [] [("job_linter", GLOBAL_CONFIG_DEFAULTS)])
        (_get_default_linter_configs linters)) raw).filter
        (fun s => strStartsWith s.name "job_linter") := rfl
  have hbase_dis : (Config.rawGet (readDict [] [("job_linter", GLOBAL_CONFIG_DEFAULTS)])
      "job_linter" "disable_linters").isSome = true := rfl
  have hbase_or : (Config.rawGet (readDict [] [("job_linter", GLOBAL_CONFIG_DEFAULTS)])
      "job_linter" "only_run").isSome = true := rfl
  have hdis_s : (Config.rawGet (_filter_config linters raw) "job_linter"
      "disable_linters").isSome = true := by
    rw [hfl, rawGet_filter _ "job_linter" "disable_linters" rfl]
    exact rawGet_isSome_readDict raw _ _ _
      (rawGet_isSome_readDict (_get_default_linter_configs linters) _ _ _ hbase_dis)
  have honly_s : (Config.rawGet (_filter_config linters raw) "job_linter"
      "only_run").isSome = true := by
    rw [hfl, rawGet_filter _ "job_linter" "only_run" rfl]
    exact rawGet_isSome_readDict raw _ _ _
      (rawGet_isSome_readDict (_get_default_linter_configs linters) _ _ _ hbase_or)
  obtain ⟨v1, hv1⟩ := Option.isSome_iff_exists.mp hdis_s
  obtain ⟨v2, hv2⟩ := Option.isSome_iff_exists.mp honly_s
  have hgl1 : getlist (_filter_config linters raw) "job_linter" "disable_linters" =
      some (commas_to_list v1) := by
    unfold getlist
    rw [hv1]
    rfl
  have hgl2 : getlist (_filter_config linters raw) "job_linter" "only_run" =
      some (commas_to_list v2) := by
    unfold getlist
    rw [hv2]
    rfl
  have hsec : ∀ p ∈ linters,
      (Config.sectionOf (_filter_config linters raw) ("job_linter:" ++ p.1)).isSome =
        true := by
    intro p hp
    rw [hfl, sectionOf_filter _ ("job_linter:" ++ p.1) rfl]
    apply sectionOf_isSome_readDict
    exact sectionOf_readDict_of_mem _ _ _ p.2.default_config
      (List.mem_map.mpr ⟨p, hp, rfl⟩)
  have hmain := lint_job_xml_spec (_filter_config linters raw) linters ctx job tree
    (commas_to_list v1) (commas_to_list v2) hgl1 hgl2 hsec hc
  refine ⟨commas_to_list v1, commas_to_list v2, _, _, hgl1, hgl2, hmain, ?_, rfl⟩
  constructor
  · intro hb p hp
    exact bne_iff_ne.mp (List.all_eq_true.mp hb p hp)
  · intro hall
    exact List.all_eq_true.mpr (fun p hp => bne_iff_ne.mpr (hall p hp))

theorem claim1_witness :
    ∃ dis only_run b out,
      getlist (_filter_config LINTERS []) "job_linter" "disable_linters" = some dis ∧
      getlist (_filter_config LINTERS []) "job_linter" "only_run" = some only_run ∧
      lint_job_xml LINTERS ["self"] "job" sampleProject (_filter_config LINTERS []) =
        some (b, out) ∧
      (b = true ↔ ∀ p ∈ relevantLinters dis only_run LINTERS,
        (ruleResult (_filter_config LINTERS []) ["self"] sampleProject p).1 ≠
          LintResult.FAIL) ∧
      out = ((relevantLinters dis only_run LINTERS).filter
              (fun p => (ruleResult (_filter_config LINTERS []) ["self"] sampleProject p).1 ==
                LintResult.FAIL)).map
              (fun p => failLine "job" (p.2).description
                (ruleResult (_filter_config LINTERS []) ["self"] sampleProject p).2) :=
  claim1_engine LINTERS ["self"] "job" sampleProject [] (by decide)

end JJL
